import Mathlib

/-!
Verification of the document ingestion and chunking pipeline of an academic
document analysis tool.  The Python sources embedded here are
`app/core/document_processor.py` (class `DocumentProcessor`) and
`app/core/pdf_processor.py` (class `PDFProcessor`).

Texts are modelled as `List Char`; Python string lengths (`len`) are code
point counts, matching `List.length`.  Character classes (`\s`, `\w`, `\d`,
`[A-Z]`) are modelled on their ASCII ranges; all concrete inputs appearing in
the theorems are ASCII, where the Python (Unicode) classes and the model
coincide.
-/

/-- ASCII model of Python's `\s` class and of the characters removed by
`str.strip()` / split on by `str.split()`: space, tab, newline, carriage
return, vertical tab, form feed. -/
def isPySpace (c : Char) : Bool :=
  c = ' ' || c = '\t' || c = '\n' || c = '\r' || c = '\x0b' || c = '\x0c'

/-- The sentence-terminal characters of the chunker's split pattern `[.!?]+`
(`document_processor.py` line 249). -/
def isTermCh (c : Char) : Bool :=
  c = '.' || c = '!' || c = '?'

/-- A separator for the purposes of word-content accounting: whitespace or a
sentence-terminal character. -/
def isSepCh (c : Char) : Bool :=
  isPySpace c || isTermCh c

/-- Python `str.strip()`: drop leading and trailing whitespace. -/
def pstrip (l : List Char) : List Char :=
  ((l.dropWhile isPySpace).reverse.dropWhile isPySpace).reverse

/-- Split a list at every element satisfying `p`, keeping empty segments
(the separators themselves are dropped).  `splitSegs p "a  b" = ["a", "", "b"]`
for `p` = space. -/
def splitSegs (p : Char → Bool) : List Char → List (List Char)
  | [] => [[]]
  | c :: rest =>
    if p c then [] :: splitSegs p rest
    else
      match splitSegs p rest with
      | [] => [[c]]
      | s :: ss => (c :: s) :: ss

/-- Maximal runs of non-`p` characters, in order: Python `str.split()` when
`p = isPySpace` (no empty words are produced). -/
def wordsBy (p : Char → Bool) (l : List Char) : List (List Char) :=
  (splitSegs p l).filter (fun s => !s.isEmpty)

/-- `re.split(r'[.!?]+', text)` (`document_processor.py` line 249): split on
maximal runs of sentence-terminal characters.  Adjacent terminal characters
produce a single split (no empty segment between them), while a leading or
trailing run still yields a leading/trailing empty segment, exactly as
`re.split` with a `+`-quantified class. -/
def splitTermRuns : List Char → List (List Char)
  | [] => [[]]
  | [c] => if isTermCh c then [[], []] else [[c]]
  | c :: d :: rest =>
    if isTermCh c && isTermCh d then splitTermRuns (d :: rest)
    else if isTermCh c then [] :: splitTermRuns (d :: rest)
    else
      match splitTermRuns (d :: rest) with
      | [] => [[c]]
      | s :: ss => (c :: s) :: ss

/-- The inner `while words and len(word_chunk) + len(words[0]) + 1 <= chunk_size`
loop of `DocumentProcessor.chunk_text` (lines 267-268): greedily pop words
into `acc`, each followed by a single space, while the next word still fits. -/
def greedyTake (size : Nat) (acc : List Char) : List (List Char) → List Char × List (List Char)
  | [] => (acc, [])
  | w :: rest =>
    if acc.length + w.length + 1 ≤ size then greedyTake size (acc ++ w ++ [' ']) rest
    else (acc, w :: rest)

/-- The outer `while words:` loop of `DocumentProcessor.chunk_text`
(lines 265-270), with `fuel` bounding the number of iterations (one word
list entry is consumed per productive iteration, so `fuel = ws.length`
suffices whenever the source loop terminates).

Returns `none` when the head word does not fit even into an empty buffer
(`len(words[0]) + 1 > chunk_size`): in the source, that iteration builds an
empty `word_chunk`, appends nothing, pops nothing, and the loop repeats the
identical state forever.  `none` therefore marks non-termination of the
source loop. -/
def packWordsF (size : Nat) : Nat → List (List Char) → Option (List (List Char))
  | _, [] => some []
  | 0, _ :: _ => none
  | fuel + 1, w :: rest =>
    if w.length + 1 ≤ size then
      match greedyTake size (w ++ [' ']) rest with
      | (c, rem) =>
        match packWordsF size fuel rem with
        | none => none
        | some cs => some (pstrip c :: cs)
    else none

/-- `packWordsF` with enough fuel for every terminating run of the source
loop. -/
def packWords (size : Nat) (ws : List (List Char)) : Option (List (List Char)) :=
  packWordsF size ws.length ws

/-- The `for sentence in sentences:` loop of `DocumentProcessor.chunk_text`
(lines 252-272).  State: `chunks` (emitted so far, in order) and `cur`
(`current_chunk`).  `none` propagates the non-termination marker of
`packWords`. -/
def chunkLoop (size : Nat) : List (List Char) → List (List Char) → List Char →
    Option (List (List Char) × List Char)
  | [], chunks, cur => some (chunks, cur)
  | s :: rest, chunks, cur =>
    let sentence := pstrip s
    if sentence.isEmpty then chunkLoop size rest chunks cur
    else if size < cur.length + sentence.length + 1 then
      if cur.isEmpty then
        match packWords size (wordsBy isPySpace sentence) with
        | none => none
        | some subs => chunkLoop size rest (chunks ++ subs) []
      else chunkLoop size rest (chunks ++ [pstrip cur]) sentence
    else chunkLoop size rest chunks (cur ++ sentence ++ ['.', ' '])

/-- ASCII model of Python's `\w` class: letters, digits, underscore. -/
def isWordCh (c : Char) : Bool :=
  ('a' ≤ c && c ≤ 'z') || ('A' ≤ c && c ≤ 'Z') || ('0' ≤ c && c ≤ '9') || c = '_'

/-- Python's `\d` (ASCII digits). -/
def isDigitCh (c : Char) : Bool :=
  '0' ≤ c && c ≤ '9'

/-- The class `[A-Z]`. -/
def isUpperCh (c : Char) : Bool :=
  'A' ≤ c && c ≤ 'Z'

/-- Index of the last newline of `run`, if any. -/
def lastNlIdx (run : List Char) : Option Nat :=
  (run.reverse.findIdx? (fun c => c = '\n')).map (fun j => run.length - 1 - j)

/-- `re.sub(r'\n\s*\n\s*\n', '\n\n', text)` (`document_processor.py` line 218).
The pattern matches at a newline whose maximal whitespace run contains at
least three newlines; the greedy stars extend the match to the last newline
of the run, and `re.sub` resumes scanning after it.  `fuel` bounds the scan
(each step consumes at least one character, so `fuel = length` suffices). -/
def sub1F : Nat → List Char → List Char
  | 0, l => l
  | _ + 1, [] => []
  | fuel + 1, c :: rest =>
    if c = '\n' then
      let run := (c :: rest).takeWhile isPySpace
      if 3 ≤ run.count '\n' then
        match lastNlIdx run with
        | some k => '\n' :: '\n' :: sub1F fuel ((c :: rest).drop (k + 1))
        | none => c :: sub1F fuel rest
      else c :: sub1F fuel rest
    else c :: sub1F fuel rest

/-- Is `c` a space or a tab? -/
def isSpaceTab (c : Char) : Bool :=
  c = ' ' || c = '\t'

/-- `re.sub(r'[ \t]+', ' ', text)` (line 219): each maximal run of spaces
and tabs becomes a single space. -/
def sub2 : List Char → List Char
  | [] => []
  | [c] => if isSpaceTab c then [' '] else [c]
  | c :: d :: rest =>
    if isSpaceTab c && isSpaceTab d then sub2 (d :: rest)
    else (if isSpaceTab c then ' ' else c) :: sub2 (d :: rest)

/-- `re.sub(r'^\s+|\s+$', '', text, flags=re.MULTILINE)` (line 220), scanning
left to right over the original string.  At a line start (`atStart`), `^\s+`
greedily removes a whole whitespace run (newlines included).  Elsewhere, at a
whitespace character, `\s+$` removes the longest whitespace prefix of the run
that ends immediately before a newline (or removes the whole run at end of
string); when the run reaches neither, the character is copied.  `fuel`
bounds the scan; each step consumes at least one character. -/
def sub3F : Nat → Bool → List Char → List Char
  | 0, _, l => l
  | _ + 1, _, [] => []
  | fuel + 1, atStart, c :: rest =>
    if atStart && isPySpace c then
      let run := (c :: rest).takeWhile isPySpace
      sub3F fuel (run.getLastD ' ' = '\n') ((c :: rest).drop run.length)
    else if isPySpace c then
      let run := (c :: rest).takeWhile isPySpace
      if ((c :: rest).drop run.length).isEmpty then []
      else
        match lastNlIdx run with
        | some k =>
          if 1 ≤ k then sub3F fuel (run.getD (k - 1) ' ' = '\n') ((c :: rest).drop k)
          else c :: sub3F fuel (c = '\n') rest
        | none => c :: sub3F fuel (c = '\n') rest
    else c :: sub3F fuel false rest

/-- Is `c` kept by the allow-list of
`re.sub(r'[^\w\s\.\,\;\:\!\?\-\(\)\[\]\{\}\"\'\/\@\#\$\%\^\&\*\+\=\<\>\~\`]', '', text)`
(line 223)?  The punctuation set is written via code points where a literal
would clash with Lean lexing (34 `"`, 39 `'`, 96 backquote). -/
def isAllowedCh (c : Char) : Bool :=
  isWordCh c || isPySpace c ||
    c ∈ ['.', ',', ';', ':', '!', '?', '-', '(', ')', '[', ']',
         Char.ofNat 123, Char.ofNat 125, Char.ofNat 34, Char.ofNat 39, '/', '@',
         '#', '$', '%', Char.ofNat 94, '&', '*', '+', '=', '<', '>', '~',
         Char.ofNat 96]

/-- Line 223: delete every character outside the allow-list. -/
def sub4 (l : List Char) : List Char :=
  l.filter isAllowedCh

/-- `re.sub(r'(\w)(\d)', r'\1 \2', text)` (line 226): insert a space between
a word character and a following digit.  `re.sub` resumes after each match,
so both matched characters are skipped. -/
def sub5 : List Char → List Char
  | c :: d :: rest =>
    if isWordCh c && isDigitCh d then c :: ' ' :: d :: sub5 rest
    else c :: sub5 (d :: rest)
  | l => l

/-- `re.sub(r'(\d)([A-Z])', r'\1 \2', text)` (line 227): insert a space
between a digit and a following capital letter. -/
def sub6 : List Char → List Char
  | c :: d :: rest =>
    if isDigitCh c && isUpperCh d then c :: ' ' :: d :: sub6 rest
    else c :: sub6 (d :: rest)
  | l => l

/-- `DocumentProcessor._clean_text` (lines 204-229): the six `re.sub`
normalization passes, in source order, after the empty-input early return. -/
def cleanText (text : List Char) : List Char :=
  if text.isEmpty then []
  else
    let t1 := sub1F text.length text
    let t2 := sub2 t1
    let t3 := sub3F t2.length true t2
    let t4 := sub4 t3
    let t5 := sub5 t4
    sub6 t5

/-- `DocumentProcessor.chunk_text(text, chunk_size)` (lines 231-278).
`some cs` is the returned chunk list; `none` means the source function does
not terminate (single word of length `≥ chunk_size` reached with an empty
buffer). -/
def chunkText (size : Nat) (text : List Char) : Option (List (List Char)) :=
  if text.length ≤ size then some [text]
  else
    match chunkLoop size (splitTermRuns text) [] [] with
    | none => none
    | some (chunks, cur) =>
      some (if cur.isEmpty then chunks else chunks ++ [pstrip cur])

/-- The error kinds observable from `DocumentProcessor.extract_text`
(lines 65-99): `FileNotFoundError` (line 80), `ValueError` for an
unsupported extension (line 85, raised outside the `try`), and the wrapping
`Exception` re-raised by the `except` clause (line 99). -/
inductive ExtractError
  | fileNotFound (path : List Char)
  | unsupportedFormat (ext : List Char)
  | extractionFailed (msg : List Char)
deriving DecidableEq, Repr

/-- The final path component, as `pathlib.PurePath.name`: trailing slashes
are not part of the name; the name is the segment after the last `/`. -/
def lastComponent (p : List Char) : List Char :=
  let q := (p.reverse.dropWhile (fun c => c = '/')).reverse
  (q.reverse.takeWhile (fun c => !(c = '/'))).reverse

/-- `pathlib.PurePath.suffix`, used by `DocumentProcessor.get_file_type`
(line 50): the extension of the final component, from its last dot, empty
when the name has no dot, starts with its only dot (hidden file), or ends
with the dot. -/
def pathSuffix (p : List Char) : List Char :=
  let name := lastComponent p
  let tailLen := (name.reverse.takeWhile (fun c => !(c = '.'))).length
  if tailLen = name.length then []
  else
    let i := name.length - 1 - tailLen
    if 0 < i ∧ i < name.length - 1 then name.drop i else []

/-- Python `str.lower()` restricted to ASCII letters (the supported
extensions are ASCII). -/
def pyLower (l : List Char) : List Char :=
  l.map Char.toLower

/-- The keys of `DocumentProcessor.SUPPORTED_FORMATS` (lines 25-29). -/
def supportedFormats : List (List Char) :=
  [".pdf".data, ".docx".data, ".txt".data]

/-- `DocumentProcessor.extract_text(file_path)` (lines 65-99).  The
filesystem and the three format-specific extractors are abstracted: `fsEx`
states whether `os.path.exists(file_path)` holds, and `pdf`, `docx`, `txt`
give the outcome of the corresponding `_extract_*_text` call (`Except.error`
is an exception, whose message the `except` clause wraps into
`extractionFailed`).  The existence check (line 79) precedes the extension
check (line 84), which precedes the dispatch (lines 88-93). -/
def extractText (fsEx : Bool) (path : List Char)
    (pdf docx txt : Except (List Char) (List Char)) : Except ExtractError (List Char) :=
  if !fsEx then Except.error (ExtractError.fileNotFound path)
  else
    let ext := pyLower (pathSuffix path)
    if !(ext ∈ supportedFormats) then Except.error (ExtractError.unsupportedFormat ext)
    else
      let r := if ext = ".pdf".data then pdf else if ext = ".docx".data then docx else txt
      match r with
      | Except.ok t => Except.ok t
      | Except.error m =>
        Except.error (ExtractError.extractionFailed ("Failed to extract text: ".data ++ m))

/-- Outcome of `page.get_text()` for one page of an opened PDF: either text,
or an exception raised mid-extraction. -/
inductive PdfPage
  | ok (s : List Char)
  | raises (msg : List Char)
deriving DecidableEq, Repr

/-- The page loop of `DocumentProcessor._extract_pdf_text` (lines 111-131)
over an already opened document, together with a flag recording whether
`pdf_document.close()` (line 124) ran before control returned.  On success
the text is accumulated page by page (cleaned, then `+ "\n\n"`), the
document is closed, and `text.strip()` is returned.  When a page raises, the
`except` clause re-raises a wrapping exception; no code path closes the
document before that re-raise (there is no `finally` and no context
manager), so the flag is `false` on that exit. -/
def extractPdfGo (acc : List Char) : List PdfPage → Except (List Char) (List Char) × Bool
  | [] => (Except.ok (pstrip acc), true)
  | PdfPage.ok s :: rest => extractPdfGo (acc ++ cleanText s ++ ['\n', '\n']) rest
  | PdfPage.raises m :: _ =>
    (Except.error ("PDF processing failed: ".data ++ m), false)

/-- `DocumentProcessor._extract_pdf_text` on an opened document with the
given pages; the second component is `true` iff the document handle was
closed before control returned to the caller. -/
def extractPdfText (pages : List PdfPage) : Except (List Char) (List Char) × Bool :=
  extractPdfGo [] pages

/-- Did an `Except` computation succeed? -/
def exceptIsOk {ε α : Type} : Except ε α → Bool
  | Except.ok _ => true
  | Except.error _ => false

/-- Is `b` a valid UTF-8 continuation byte (`0x80-0xBF`)? -/
def contOk (b : Nat) : Bool :=
  128 ≤ b && b ≤ 191

/-- One step of UTF-8 decoding: given a non-empty byte list, return the
decoded scalar (or `none` for an ill-formed sequence) and the number of
bytes consumed MINUS ONE.  On an ill-formed sequence the consumed bytes are
the maximal subpart (the bytes that form a valid prefix of some sequence),
as CPython's UTF-8 codec delimits them. -/
def utf8Step : List Nat → Option Char × Nat
  | [] => (none, 0)
  | b :: rest =>
    if b ≤ 127 then (some (Char.ofNat b), 0)
    else if 194 ≤ b && b ≤ 223 then
      match rest with
      | b1 :: _ =>
        if contOk b1 then (some (Char.ofNat ((b - 192) * 64 + (b1 - 128))), 1)
        else (none, 0)
      | [] => (none, 0)
    else if 224 ≤ b && b ≤ 239 then
      let lo := if b = 224 then 160 else 128
      let hi := if b = 237 then 159 else 191
      match rest with
      | b1 :: rest1 =>
        if lo ≤ b1 && b1 ≤ hi then
          match rest1 with
          | b2 :: _ =>
            if contOk b2 then
              (some (Char.ofNat ((b - 224) * 4096 + (b1 - 128) * 64 + (b2 - 128))), 2)
            else (none, 1)
          | [] => (none, 1)
        else (none, 0)
      | [] => (none, 0)
    else if 240 ≤ b && b ≤ 244 then
      let lo := if b = 240 then 144 else 128
      let hi := if b = 244 then 143 else 191
      match rest with
      | b1 :: rest1 =>
        if lo ≤ b1 && b1 ≤ hi then
          match rest1 with
          | b2 :: rest2 =>
            if contOk b2 then
              match rest2 with
              | b3 :: _ =>
                if contOk b3 then
                  (some (Char.ofNat
                    ((b - 240) * 262144 + (b1 - 128) * 4096 + (b2 - 128) * 64 + (b3 - 128))), 3)
                else (none, 2)
              | [] => (none, 2)
            else (none, 1)
          | [] => (none, 1)
        else (none, 0)
      | [] => (none, 0)
    else (none, 0)

/-- Strict UTF-8 decoding (skipping `skip` already-consumed continuation
bytes first): `some` on well-formed input, `none` as soon as an ill-formed
sequence is met. -/
def utf8DecStr : Nat → List Nat → Option (List Char)
  | _, [] => some []
  | skip + 1, _ :: rest => utf8DecStr skip rest
  | 0, b :: rest =>
    match utf8Step (b :: rest) with
    | (some c, e) => (utf8DecStr e rest).map (fun l => c :: l)
    | (none, _) => none

/-- Strict UTF-8 decoding: the claim-side notion of the bytes being
decodable ("undecodable" = `none`). -/
def utf8DecodeStrict (l : List Nat) : Option (List Char) :=
  utf8DecStr 0 l

/-- UTF-8 decoding with `errors='replace'` (skipping `skip`
already-consumed bytes first): every maximal ill-formed subpart becomes one
U+FFFD replacement character, and decoding always succeeds. -/
def utf8DecRep : Nat → List Nat → List Char
  | _, [] => []
  | skip + 1, _ :: rest => utf8DecRep skip rest
  | 0, b :: rest =>
    match utf8Step (b :: rest) with
    | (some c, e) => c :: utf8DecRep e rest
    | (none, e) => Char.ofNat 0xFFFD :: utf8DecRep e rest

/-- Total UTF-8 decoding with replacement, as `open(..., errors='replace')`
performs for the default/fallback `utf-8` codec. -/
def utf8DecodeReplace (l : List Nat) : List Char :=
  utf8DecRep 0 l

/-- `DocumentProcessor._extract_txt_text` (lines 172-202) on the raw bytes
of the file.  `chardet.detect` is abstracted: `detected` is `some dec` when
detection produced an encoding (and `dec` is that codec's `errors='replace'`
decoder, total by construction), and `none` when detection failed, in which
case the code falls back to `'utf-8'` (lines 187-188), modelled concretely
by `utf8DecodeReplace`.  The file is then read with `errors='replace'`
(line 191), which never raises, so the surrounding `try` has nothing to
catch on the decoding path and the result is always `Except.ok` of the
cleaned, stripped text. -/
def extractTxtText (raw : List Nat) (detected : Option (List Nat → List Char)) :
    Except (List Char) (List Char) :=
  let decode := match detected with
    | some d => d
    | none => utf8DecodeReplace
  Except.ok (pstrip (cleanText (decode raw)))

/-- Normalize a Python slice/`rfind` index against a list of length `n`:
negative indices count from the end (clamped at `0`), positive ones are
clamped at `n`. -/
def pyIdx (n : Nat) (i : Int) : Nat :=
  if i < 0 then (i + n).toNat else min i.toNat n

/-- `text.rfind('.', start, end)` (`pdf_processor.py` line 149): highest
index of `'.'` in `text[start:end]`, or `-1`. -/
def pyRFindDot (text : List Char) (start fin : Int) : Int :=
  let a := pyIdx text.length start
  let b := pyIdx text.length fin
  let seg := (text.take b).drop a
  match (seg.reverse.findIdx? (fun c => c = '.')).map (fun j => seg.length - 1 - j) with
  | none => -1
  | some k => (a : Int) + k

/-- The `while start < len(text):` loop of `PDFProcessor.chunk_text`
(`pdf_processor.py` lines 140-154), with `fuel` bounding the number of
iterations: the loop body is otherwise translated literally (tentative end
`start + max_chunk_size`; final-piece break; sentence-break adjustment when
`rfind` found a period past the window midpoint; stride `end - overlap`).
Exiting the loop consumes no fuel, so `none` is returned exactly when the
modelled run performs more than `fuel` iterations. -/
def overlapGo (text : List Char) (maxS overlap : Nat) : Nat → Int → Option (List (List Char))
  | 0, start =>
    if start < (text.length : Int) then none else some []
  | fuel + 1, start =>
    if start < (text.length : Int) then
      let endI : Int := start + (maxS : Int)
      if (text.length : Int) ≤ endI then some [text.drop (pyIdx text.length start)]
      else
        let sb := pyRFindDot text start endI
        let endF := if start + ((maxS / 2 : Nat) : Int) < sb then sb + 1 else endI
        match overlapGo text maxS overlap fuel (endF - (overlap : Int)) with
        | none => none
        | some cs => some (((text.take (pyIdx text.length endF)).drop (pyIdx text.length start)) :: cs)
    else some []

/-- `PDFProcessor.chunk_text(text, overlap)` (lines 123-157) with the given
iteration budget: `some` is the returned chunk list, `none` means the loop
ran longer than `fuel` iterations. -/
def chunkTextOverlap (fuel : Nat) (text : List Char) (maxS overlap : Nat) :
    Option (List (List Char)) :=
  if text.length ≤ maxS then some [text]
  else overlapGo text maxS overlap fuel 0

/-- `PDFProcessor.chunk_text` terminates on `text` with the given
`max_chunk_size` and `overlap` iff some finite iteration budget completes. -/
def overlapTerminates (text : List Char) (maxS overlap : Nat) : Prop :=
  ∃ fuel, (chunkTextOverlap fuel text maxS overlap).isSome

/-- The non-separator content of a text: its characters in order, with
whitespace and sentence-terminal punctuation removed.  Used to account for
what the sentence-greedy chunker preserves. -/
def content (l : List Char) : List Char :=
  l.filter (fun c => !isSepCh c)

/-- The non-separator content of a chunk sequence, in order. -/
def contents (ls : List (List Char)) : List Char :=
  ls.flatMap content

/-! ## Theorems -/

/-- C1: the claimed size bound fails on the code.  With `chunk_size = 5` and
input `"ab. cd efg."`, `chunk_text` emits the chunk `"cd efg"` of length 6:
over the bound, yet made of two words of length at most 5 (the second
sentence does not fit after the first, so line 261 installs it as the new
buffer without any size check, and it is later emitted whole). -/
theorem c1_size_bound_violated :
    chunkText 5 ("ab. cd efg.".data) = some ["ab.".data, "cd efg".data] ∧
    5 < ("cd efg".data).length ∧
    wordsBy isPySpace ("cd efg".data) = ["cd".data, "efg".data] ∧
    ("cd".data).length ≤ 5 ∧ ("efg".data).length ≤ 5 := by
  decide

/-- C2: `_clean_text` is not idempotent.  The pass `re.sub(r'(\w)(\d)', ...)`
matches digit pairs (a digit is a `\w` character) and resumes after each
match, so `"2020"` becomes `"2 02 0"` in one application and `"2 0 2 0"`
after a second. -/
theorem c2_clean_text_not_idempotent :
    cleanText ("2020".data) = "2 02 0".data ∧
    cleanText (cleanText ("2020".data)) = "2 0 2 0".data ∧
    cleanText (cleanText ("2020".data)) ≠ cleanText ("2020".data) := by
  decide

/-- C3: `chunk_text` is not total.  On the 11-character single word
`"aaaaaaaaaaa"` with `chunk_size = 5`, the word-splitting loop never pops the
word (`len(word) + 1 > chunk_size`), appends nothing, and repeats the same
state forever; the model returns its non-termination marker `none`, and in
particular the word is never emitted. -/
theorem c3_long_word_not_emitted :
    ("aaaaaaaaaaa".data).length = 11 ∧
    chunkText 5 ("aaaaaaaaaaa".data) = none := by
  decide

/-- C5: the normalization of `"word2020 2020Results"` is not the spec's
`"word 2020 2020 Results"`.  The digit-digit matches of `(\w)(\d)` also fire
inside the numbers, producing `"word 20 20 2 02 0 Results"`. -/
theorem c5_normalize_example_wrong :
    cleanText ("word2020 2020Results".data) = "word 20 20 2 02 0 Results".data ∧
    cleanText ("word2020 2020Results".data) ≠ "word 2020 2020 Results".data := by
  decide

/-- C10: a non-empty input longer than the bound, made only of
sentence-terminal punctuation and whitespace, chunks to the empty sequence:
every sentence candidate strips to empty and is skipped, and no buffer is
ever started. -/
theorem c10_nonempty_input_empty_chunks :
    ("!! ?? ..".data) ≠ ([] : List Char) ∧
    4 < ("!! ?? ..".data).length ∧
    chunkText 4 ("!! ?? ..".data) = some [] := by
  decide

/-- C4 counterexample: when a page raises mid-extraction, `_extract_pdf_text`
re-raises the wrapped exception from its `except` clause without closing the
opened document (there is no `finally` and no context manager), so this exit
path returns control with the handle still open. -/
theorem c4_handle_not_closed_on_exception :
    (extractPdfText [PdfPage.raises ("boom".data)]).2 = false ∧
    (extractPdfText [PdfPage.raises ("boom".data)]).1 =
      Except.error ("PDF processing failed: boom".data) :=
  ⟨rfl, rfl⟩

/-- Helper for C4: over any accumulator, the page loop closes the document
iff it runs to completion. -/
theorem extractPdfGo_closed_iff (pages : List PdfPage) :
    ∀ acc, (extractPdfGo acc pages).2 = true ↔
      exceptIsOk (extractPdfGo acc pages).1 = true := by
  induction pages with
  | nil => intro acc; simp [extractPdfGo, exceptIsOk]
  | cons p rest ih =>
    intro acc
    cases p with
    | ok s => exact ih _
    | raises m => simp [extractPdfGo, exceptIsOk]

/-- C4 amended: the document handle is closed before control returns exactly
on the success path; on the exception path the wrapped error propagates with
the handle left open. -/
theorem c4_closed_iff_success (pages : List PdfPage) :
    (extractPdfText pages).2 = true ↔ exceptIsOk (extractPdfText pages).1 = true :=
  extractPdfGo_closed_iff pages []

/-- C6: `extract_text` raises `FileNotFoundError` whenever the path does not
exist, before any extension look-up or dispatch (the result is the same for
every extractor outcome); and on an existing path whose lowercased extension
is outside the supported registry it raises the unsupported-format error
carrying that extension. -/
theorem c6_extract_error_order (path : List Char)
    (pdf docx txt : Except (List Char) (List Char)) :
    (extractText false path pdf docx txt =
      Except.error (ExtractError.fileNotFound path)) ∧
    (pyLower (pathSuffix path) ∉ supportedFormats →
      extractText true path pdf docx txt =
        Except.error (ExtractError.unsupportedFormat (pyLower (pathSuffix path)))) := by
  constructor
  · rfl
  · intro h
    simp only [extractText, Bool.not_true, Bool.false_eq_true, if_false, decide_eq_true_eq]
    rw [if_pos]
    simp [h]

/-- C6 witness: a missing `x.pdf` yields the not-found error, and an
existing `paper.RTF` yields the unsupported-format error naming `.rtf`. -/
theorem c6_extract_error_order_witness :
    extractText false ("x.pdf".data) (Except.ok []) (Except.ok []) (Except.ok []) =
      Except.error (ExtractError.fileNotFound ("x.pdf".data)) ∧
    extractText true ("paper.RTF".data) (Except.ok []) (Except.ok []) (Except.ok []) =
      Except.error (ExtractError.unsupportedFormat (".rtf".data)) := by
  have h := c6_extract_error_order ("paper.RTF".data)
    (Except.ok ([] : List Char)) (Except.ok []) (Except.ok [])
  have he : pyLower (pathSuffix ("paper.RTF".data)) = ".rtf".data := by decide
  refine ⟨(c6_extract_error_order ("x.pdf".data) (Except.ok []) (Except.ok []) (Except.ok [])).1, ?_⟩
  rw [← he]
  exact h.2 (by decide)

/-- Helper for C9: whenever strict UTF-8 decoding fails, the replacing
decoder has emitted at least one U+FFFD replacement character. -/
theorem utf8DecRep_has_replacement (l : List Nat) :
    ∀ skip, utf8DecStr skip l = none → Char.ofNat 0xFFFD ∈ utf8DecRep skip l := by
  induction l with
  | nil => intro skip h; simp [utf8DecStr] at h
  | cons b rest ih =>
    intro skip h
    match skip with
    | s + 1 =>
      simp only [utf8DecStr] at h
      simpa [utf8DecRep] using ih s h
    | 0 =>
      simp only [utf8DecStr] at h
      simp only [utf8DecRep]
      cases hs : utf8Step (b :: rest) with
      | mk oc e =>
        cases oc with
        | some c =>
          rw [hs] at h
          rw [Option.map_eq_none'] at h
          exact List.mem_cons_of_mem _ (ih e h)
        | none => simp

/-- C9: TXT extraction never raises on malformed bytes.  For any byte
sequence that strict UTF-8 decoding rejects, the extraction path with the
defaulted `utf-8` codec still returns text: `open(..., errors='replace')`
decodes totally, substituting U+FFFD for every ill-formed subpart (at least
one substitution occurs), and the result is cleaned, stripped and returned
with no exception. -/
theorem c9_txt_replace_never_raises (raw : List Nat)
    (h : utf8DecodeStrict raw = none) :
    extractTxtText raw none = Except.ok (pstrip (cleanText (utf8DecodeReplace raw))) ∧
    Char.ofNat 0xFFFD ∈ utf8DecodeReplace raw :=
  ⟨rfl, utf8DecRep_has_replacement raw 0 h⟩

/-- C9 witness: the single byte `0xFF` is not valid UTF-8, yet extraction
returns successfully, with the replacement character present in the decoded
text. -/
theorem c9_txt_replace_never_raises_witness :
    utf8DecodeStrict [255] = none ∧
    (extractTxtText [255] none = Except.ok (pstrip (cleanText (utf8DecodeReplace [255]))) ∧
     Char.ofNat 0xFFFD ∈ utf8DecodeReplace [255]) :=
  ⟨by decide, c9_txt_replace_never_raises [255] (by decide)⟩

/-- Content distributes over append. -/
theorem content_append (a b : List Char) : content (a ++ b) = content a ++ content b :=
  List.filter_append a b

/-- Contents distributes over append. -/
theorem contents_append (a b : List (List Char)) :
    contents (a ++ b) = contents a ++ contents b := by
  simp [contents]

/-- A separator character carries no content. -/
theorem content_sep_cons (c : Char) (l : List Char) (h : isSepCh c = true) :
    content (c :: l) = content l := by
  simp [content, h]

/-- A non-separator character is content. -/
theorem content_word_cons (c : Char) (l : List Char) (h : isSepCh c = false) :
    content (c :: l) = c :: content l := by
  simp [content, h]

/-- Dropping leading whitespace preserves content. -/
theorem content_dropWhile_pys (l : List Char) :
    content (l.dropWhile isPySpace) = content l := by
  induction l with
  | nil => rfl
  | cons c rest ih =>
    by_cases h : isPySpace c
    · rw [List.dropWhile_cons_of_pos h, ih, content_sep_cons]
      simp [isSepCh, h]
    · rw [List.dropWhile_cons_of_neg h]

/-- Content commutes with reversal. -/
theorem content_reverse (l : List Char) : content l.reverse = (content l).reverse := by
  simp [content, List.filter_reverse]

/-- Stripping whitespace preserves content. -/
theorem content_pstrip (l : List Char) : content (pstrip l) = content l := by
  unfold pstrip
  rw [content_reverse, content_dropWhile_pys, content_reverse,
    content_dropWhile_pys, List.reverse_reverse]

/-- The sentence split of the chunker preserves content: the dropped
delimiters are sentence-terminal characters, which carry no content. -/
theorem contents_splitTermRuns (l : List Char) :
    contents (splitTermRuns l) = content l := by
  induction l with
  | nil => rfl
  | cons c tail ih =>
    cases tail with
    | nil =>
      by_cases h : isTermCh c
      · simp [splitTermRuns, h, contents, content, isSepCh]
      · simp [splitTermRuns, h, contents, content, isSepCh]
    | cons d rest =>
      by_cases hc : isTermCh c
      · have hcs : isSepCh c = true := by simp [isSepCh, hc]
        by_cases hd : isTermCh d
        · rw [show splitTermRuns (c :: d :: rest) = splitTermRuns (d :: rest) by
            simp [splitTermRuns, hc, hd]]
          rw [ih, content_sep_cons _ _ hcs]
        · rw [show splitTermRuns (c :: d :: rest) = [] :: splitTermRuns (d :: rest) by
            simp [splitTermRuns, hc, hd]]
          rw [show contents ([] :: splitTermRuns (d :: rest)) =
            contents (splitTermRuns (d :: rest)) by simp [contents, content]]
          rw [ih, content_sep_cons _ _ hcs]
      · cases hsp : splitTermRuns (d :: rest) with
        | nil =>
          rw [show splitTermRuns (c :: d :: rest) = [[c]] by
            simp [splitTermRuns, hc, hsp]]
          rw [hsp] at ih
          simp only [contents, List.flatMap_nil] at ih
          simp only [contents, List.flatMap_cons, List.flatMap_nil, List.append_nil]
          rw [show content (c :: d :: rest) = content [c] ++ content (d :: rest) from
            content_append [c] (d :: rest), ← ih, List.append_nil]
        | cons s ss =>
          rw [show splitTermRuns (c :: d :: rest) = (c :: s) :: ss by
            simp [splitTermRuns, hc, hsp]]
          rw [hsp] at ih
          simp only [contents, List.flatMap_cons] at ih ⊢
          by_cases hcs : isSepCh c = true
          · rw [content_sep_cons _ _ hcs, content_sep_cons _ _ hcs, ih]
          · rw [content_word_cons _ _ (by simpa using hcs),
              content_word_cons _ _ (by simpa using hcs)]
            simp only [List.cons_append]
            rw [show (content s ++ ss.flatMap content : List Char) = content (d :: rest) from ih]

/-- Splitting at whitespace preserves content. -/
theorem contents_splitSegs_pys (l : List Char) :
    contents (splitSegs isPySpace l) = content l := by
  induction l with
  | nil => rfl
  | cons c rest ih =>
    by_cases h : isPySpace c
    · rw [show splitSegs isPySpace (c :: rest) = [] :: splitSegs isPySpace rest by
        simp [splitSegs, h]]
      rw [show contents ([] :: splitSegs isPySpace rest) =
        contents (splitSegs isPySpace rest) by simp [contents, content]]
      rw [ih, content_sep_cons _ _ (by simp [isSepCh, h])]
    · cases hsp : splitSegs isPySpace rest with
      | nil =>
        rw [show splitSegs isPySpace (c :: rest) = [[c]] by simp [splitSegs, h, hsp]]
        rw [hsp] at ih
        simp only [contents, List.flatMap_nil] at ih
        simp only [contents, List.flatMap_cons, List.flatMap_nil, List.append_nil]
        rw [show content (c :: rest) = content [c] ++ content rest from
          content_append [c] rest, ← ih, List.append_nil]
      | cons s ss =>
        rw [show splitSegs isPySpace (c :: rest) = (c :: s) :: ss by
          simp [splitSegs, h, hsp]]
        rw [hsp] at ih
        simp only [contents, List.flatMap_cons] at ih ⊢
        by_cases hcs : isSepCh c = true
        · rw [content_sep_cons _ _ hcs, content_sep_cons _ _ hcs, ih]
        · rw [content_word_cons _ _ (by simpa using hcs),
            content_word_cons _ _ (by simpa using hcs)]
          simp only [List.cons_append]
          rw [show (content s ++ ss.flatMap content : List Char) = content rest from ih]

/-- Discarding empty segments does not change contents. -/
theorem contents_filter_nonempty (ss : List (List Char)) :
    contents (ss.filter (fun s => !s.isEmpty)) = contents ss := by
  induction ss with
  | nil => rfl
  | cons s rest ih =>
    by_cases h : s.isEmpty
    · have : s = [] := by cases s <;> simp_all
      subst this
      simpa [contents] using ih
    · simp only [List.filter_cons, h, Bool.not_false, if_true, contents,
        List.flatMap_cons] at ih ⊢
      rw [show (List.filter (fun s => !s.isEmpty) rest).flatMap content =
        rest.flatMap content from ih]

/-- `str.split()` preserves content. -/
theorem contents_words_pys (l : List Char) :
    contents (wordsBy isPySpace l) = content l := by
  rw [wordsBy, contents_filter_nonempty, contents_splitSegs_pys]

/-- The inner word-packing loop preserves content: the accumulated buffer
plus the remaining words carry the content of the original buffer plus all
words. -/
theorem greedyTake_content (size : Nat) (ws : List (List Char)) :
    ∀ acc, content (greedyTake size acc ws).1 ++ contents (greedyTake size acc ws).2 =
      content acc ++ contents ws := by
  induction ws with
  | nil => intro acc; simp [greedyTake, contents]
  | cons w rest ih =>
    intro acc
    by_cases h : acc.length + w.length + 1 ≤ size
    · rw [show greedyTake size acc (w :: rest) = greedyTake size (acc ++ w ++ [' ']) rest by
        simp [greedyTake, h]]
      rw [ih (acc ++ w ++ [' '])]
      rw [content_append (acc ++ w) [' '], content_append acc w]
      simp only [contents, List.flatMap_cons]
      rw [show content [' '] = [] by decide]
      simp
    · rw [show greedyTake size acc (w :: rest) = (acc, w :: rest) by simp [greedyTake, h]]

/-- The outer word-packing loop preserves content whenever it completes. -/
theorem packWordsF_content (size : Nat) :
    ∀ fuel ws subs, packWordsF size fuel ws = some subs → contents subs = contents ws := by
  intro fuel
  induction fuel with
  | zero =>
    intro ws subs h
    cases ws with
    | nil => simp [packWordsF] at h; simp [← h]
    | cons w rest => simp [packWordsF] at h
  | succ f ih =>
    intro ws subs h
    cases ws with
    | nil => simp [packWordsF] at h; simp [← h]
    | cons w rest =>
      by_cases hw : w.length + 1 ≤ size
      · rw [show packWordsF size (f + 1) (w :: rest) =
          (match greedyTake size (w ++ [' ']) rest with
          | (c, rem) =>
            match packWordsF size f rem with
            | none => none
            | some cs => some (pstrip c :: cs)) by simp [packWordsF, hw]] at h
        cases hgt : greedyTake size (w ++ [' ']) rest with
        | mk c rem =>
          rw [hgt] at h
          dsimp only at h
          cases hp : packWordsF size f rem with
          | none => rw [hp] at h; exact absurd h (by simp)
          | some cs =>
            rw [hp] at h
            simp only [Option.some_inj] at h
            subst h
            have hrec := ih rem cs hp
            simp only [contents, List.flatMap_cons] at hrec ⊢
            rw [content_pstrip, hrec]
            have hg := greedyTake_content size rest (w ++ [' '])
            rw [hgt] at hg
            simp only [contents] at hg
            rw [hg, content_append w [' ']]
            rw [show content [' '] = [] by decide]
            simp
      · rw [show packWordsF size (f + 1) (w :: rest) = none by simp [packWordsF, hw]] at h
        exact absurd h (by simp)

/-- Unfolding: a sentence stripping to empty is skipped. -/
theorem chunkLoop_cons_skip (size : Nat) (s : List Char) (rest chunks : List (List Char))
    (cur : List Char) (h : (pstrip s).isEmpty = true) :
    chunkLoop size (s :: rest) chunks cur = chunkLoop size rest chunks cur := by
  simp [chunkLoop, h]

/-- Unfolding: a fitting sentence is appended to the buffer with `". "`. -/
theorem chunkLoop_cons_acc (size : Nat) (s : List Char) (rest chunks : List (List Char))
    (cur : List Char) (h1 : (pstrip s).isEmpty = false)
    (h2 : ¬ size < cur.length + (pstrip s).length + 1) :
    chunkLoop size (s :: rest) chunks cur =
      chunkLoop size rest chunks (cur ++ pstrip s ++ ['.', ' ']) := by
  simp [chunkLoop, h1, h2]

/-- Unfolding: an overflowing sentence with a non-empty buffer emits the
buffer and installs the sentence. -/
theorem chunkLoop_cons_emit (size : Nat) (s : List Char) (rest chunks : List (List Char))
    (cur : List Char) (h1 : (pstrip s).isEmpty = false)
    (h2 : size < cur.length + (pstrip s).length + 1) (h3 : cur.isEmpty = false) :
    chunkLoop size (s :: rest) chunks cur =
      chunkLoop size rest (chunks ++ [pstrip cur]) (pstrip s) := by
  simp [chunkLoop, h1, h2, h3]

/-- Unfolding: an overflowing sentence with an empty buffer goes through
word splitting. -/
theorem chunkLoop_cons_pack (size : Nat) (s : List Char) (rest chunks : List (List Char))
    (h1 : (pstrip s).isEmpty = false) (h2 : size < (pstrip s).length + 1) :
    chunkLoop size (s :: rest) chunks [] =
      match packWords size (wordsBy isPySpace (pstrip s)) with
      | none => none
      | some subs => chunkLoop size rest (chunks ++ subs) [] := by
  have h2' : size < ([] : List Char).length + (pstrip s).length + 1 := by simpa using h2
  simp only [chunkLoop, h1, Bool.false_eq_true, if_false]
  rw [if_pos h2']
  simp

/-- The sentence loop preserves content whenever it completes: emitted
chunks plus the final buffer carry the content of the initial chunks, the
initial buffer and all sentences. -/
theorem chunkLoop_content (size : Nat) (ss : List (List Char)) :
    ∀ chunks cur out, chunkLoop size ss chunks cur = some out →
      contents out.1 ++ content out.2 = contents chunks ++ content cur ++ contents ss := by
  induction ss with
  | nil =>
    intro chunks cur out h
    simp only [chunkLoop, Option.some_inj] at h
    subst h
    simp [contents]
  | cons s rest ih =>
    intro chunks cur out h
    by_cases hse : (pstrip s).isEmpty
    · rw [chunkLoop_cons_skip size s rest chunks cur hse] at h
      have hps : pstrip s = [] := by simpa using hse
      have hs0 : content s = [] := by rw [← content_pstrip s, hps]; rfl
      rw [ih chunks cur out h]
      simp [contents, hs0]
    · have hse' : (pstrip s).isEmpty = false := by simpa using hse
      by_cases hbig : size < cur.length + (pstrip s).length + 1
      · by_cases hcur : cur.isEmpty
        · have hcur0 : cur = [] := by simpa using hcur
          subst hcur0
          have hbig' : size < (pstrip s).length + 1 := by simpa using hbig
          rw [chunkLoop_cons_pack size s rest chunks hse' hbig'] at h
          cases hp : packWords size (wordsBy isPySpace (pstrip s)) with
          | none => rw [hp] at h; exact absurd h (by simp)
          | some subs =>
            rw [hp] at h
            dsimp only at h
            have hrec := ih (chunks ++ subs) [] out h
            rw [hrec, contents_append]
            have hsubs := packWordsF_content size
              (wordsBy isPySpace (pstrip s)).length (wordsBy isPySpace (pstrip s)) subs hp
            rw [hsubs, contents_words_pys, content_pstrip]
            simp [contents, content]
        · have hcur' : cur.isEmpty = false := by simpa using hcur
          rw [chunkLoop_cons_emit size s rest chunks cur hse' hbig hcur'] at h
          rw [ih _ _ out h, contents_append]
          simp only [contents, List.flatMap_cons, List.flatMap_nil, List.append_nil]
          rw [content_pstrip, content_pstrip]
          simp [contents]
      · rw [chunkLoop_cons_acc size s rest chunks cur hse' hbig] at h
        rw [ih _ _ out h]
        rw [content_append (cur ++ pstrip s) ['.', ' '], content_append cur (pstrip s)]
        rw [show content ['.', ' '] = [] by decide]
        rw [content_pstrip]
        simp [contents]

/-- C7 counterexample: chunking does not preserve the word sequence.  With
bound 5 the input `"ab cd!"` (words `ab`, `cd!`) chunks to `["ab", "cd"]`
(words `ab`, `cd`): the terminal punctuation dropped by the sentence split
changes the words of the concatenated chunks. -/
theorem c7_word_sequence_not_preserved :
    chunkText 5 ("ab cd!".data) = some ["ab".data, "cd".data] ∧
    (["ab".data, "cd".data].flatMap (wordsBy isPySpace) ≠
      wordsBy isPySpace ("ab cd!".data)) := by
  decide

/-- C7 amended: whenever sentence-greedy chunking terminates, concatenating
the emitted chunks in order preserves exactly the sequence of non-separator
characters (characters other than whitespace and `.`/`!`/`?`): none is
dropped, duplicated or reordered.  (The word sequence itself is not
preserved: the sentence split erases terminal punctuation inside and at the
end of words, and re-installing an overflowing sentence in the buffer can
merge adjacent words.) -/
theorem c7_content_preserved (size : Nat) (text : List Char) (cs : List (List Char))
    (h : chunkText size text = some cs) :
    contents cs = content text := by
  unfold chunkText at h
  by_cases hlen : text.length ≤ size
  · rw [if_pos hlen] at h
    simp only [Option.some_inj] at h
    subst h
    simp [contents]
  · rw [if_neg hlen] at h
    cases hl : chunkLoop size (splitTermRuns text) [] [] with
    | none => rw [hl] at h; exact absurd h (by simp)
    | some out =>
      rw [hl] at h
      dsimp only at h
      have hinv := chunkLoop_content size (splitTermRuns text) [] [] out hl
      rw [show content ([] : List Char) = [] from rfl] at hinv
      simp only [contents, List.flatMap_nil, List.nil_append] at hinv
      have hst := contents_splitTermRuns text
      simp only [contents] at hst
      cases out with
      | mk chunks cur =>
        dsimp only at h hinv
        rw [hst] at hinv
        by_cases hcur : cur.isEmpty
        · have hcur0 : cur = [] := by simpa using hcur
          subst hcur0
          simp only [List.isEmpty_nil, if_true, Option.some_inj] at h
          subst h
          simpa [contents, content] using hinv
        · have hcur' : cur.isEmpty = false := by simpa using hcur
          rw [hcur'] at h
          simp only [Bool.false_eq_true, if_false, Option.some_inj] at h
          subst h
          simp only [contents, List.flatMap_append, List.flatMap_cons, List.flatMap_nil,
            List.append_nil]
          rw [content_pstrip]
          exact hinv

/-- C7 amended witness: a concrete terminating run, with the content of the
chunks equal to the content of the input. -/
theorem c7_content_preserved_witness :
    chunkText 5 ("ab. cd efg.".data) = some ["ab.".data, "cd efg".data] ∧
    contents ["ab.".data, "cd efg".data] = content ("ab. cd efg.".data) :=
  ⟨by decide, c7_content_preserved 5 ("ab. cd efg.".data) ["ab.".data, "cd efg".data] (by decide)⟩

/-- Helper for C8: on `"aaaaaaa.aaaaaaa."` with `max_chunk_size = 10` and
`overlap = 8`, every iteration finds the sentence break at index 7, sets
`end = 8`, and strides back to `start = 8 - 8 = 0`: the loop state repeats,
so no iteration budget completes. -/
theorem c8_overlapGo_stuck :
    ∀ n, overlapGo ("aaaaaaa.aaaaaaa.".data) 10 8 n 0 = none := by
  have hstep : ∀ m, overlapGo ("aaaaaaa.aaaaaaa.".data) 10 8 (m + 1) 0 =
      (match overlapGo ("aaaaaaa.aaaaaaa.".data) 10 8 m 0 with
       | none => none
       | some cs => some (((("aaaaaaa.aaaaaaa.".data).take
           (pyIdx ("aaaaaaa.aaaaaaa.".data).length 8)).drop
           (pyIdx ("aaaaaaa.aaaaaaa.".data).length 0)) :: cs)) := by
    intro m
    have hsb : pyRFindDot ("aaaaaaa.aaaaaaa.".data) 0 (0 + (10 : Nat)) = 7 := by decide
    have hlt : (0 : Int) < (("aaaaaaa.aaaaaaa.".data).length : Int) := by decide
    have hnb : ¬ ((("aaaaaaa.aaaaaaa.".data).length : Int) ≤ 0 + (10 : Nat)) := by decide
    simp only [overlapGo, hsb, if_pos hlt, if_neg hnb]
    norm_num
  intro n
  induction n with
  | zero => decide
  | succ m ih => rw [hstep m, ih]

/-- C8 counterexample: the overlap constraint of the claim
(`0 ≤ overlap < max_chunk_size`) does not ensure termination.  With
`max_chunk_size = 10`, `overlap = 8` and the 16-character text
`"aaaaaaa.aaaaaaa."`, the sentence-break adjustment sets `end = 8` in every
iteration and `start = end - overlap` returns to `0`, so
`PDFProcessor.chunk_text` loops forever. -/
theorem c8_nontermination_within_claimed_bounds :
    (8 : Nat) < 10 ∧ ¬ overlapTerminates ("aaaaaaa.aaaaaaa.".data) 10 8 := by
  refine ⟨by norm_num, ?_⟩
  rintro ⟨fuel, hf⟩
  rw [chunkTextOverlap, if_neg (by decide), c8_overlapGo_stuck fuel] at hf
  simp at hf

/-- Helper for C8 amended: with `overlap < max_chunk_size` and
`overlap ≤ max_chunk_size / 2 + 1`, every iteration advances `start` by at
least one, so a budget of `len(text) - start` iterations completes. -/
theorem overlapGo_isSome (text : List Char) (maxS overlap : Nat)
    (h1 : overlap < maxS) (h2 : overlap ≤ maxS / 2 + 1) :
    ∀ fuel (start : Int), ((text.length : Int) - start).toNat ≤ fuel →
      (overlapGo text maxS overlap fuel start).isSome := by
  intro fuel
  induction fuel with
  | zero =>
    intro start hb
    have hns : ¬ start < (text.length : Int) := by omega
    simp [overlapGo, hns]
  | succ f ih =>
    intro start hb
    by_cases hs : start < (text.length : Int)
    · by_cases he : (text.length : Int) ≤ start + (maxS : Int)
      · simp [overlapGo, hs, he]
      · have hnext : start + 1 ≤
            (if start + ((maxS / 2 : Nat) : Int) < pyRFindDot text start (start + (maxS : Nat))
             then pyRFindDot text start (start + (maxS : Nat)) + 1
             else start + (maxS : Nat)) - (overlap : Int) := by
          by_cases hc : start + ((maxS / 2 : Nat) : Int) <
              pyRFindDot text start (start + (maxS : Nat))
          · rw [if_pos hc]
            have hd : ((maxS / 2 : Nat) : Int) + 1 ≥ (overlap : Int) := by
              exact_mod_cast by omega
            omega
          · rw [if_neg hc]
            omega
        set nxt : Int :=
          (if start + ((maxS / 2 : Nat) : Int) < pyRFindDot text start (start + (maxS : Nat))
           then pyRFindDot text start (start + (maxS : Nat)) + 1
           else start + (maxS : Nat)) - (overlap : Int) with hnxt
        have hb' : (((text.length : Int) - nxt).toNat ≤ f) := by omega
        have hrec := ih nxt hb'
        simp only [overlapGo, if_pos hs, if_neg he]
        cases hgo : overlapGo text maxS overlap f nxt with
        | none => rw [hgo] at hrec; simp at hrec
        | some cs => simp
    · simp [overlapGo, hs]

/-- C8 amended: overlapping-window chunking terminates for every input text
whenever `overlap < max_chunk_size` and additionally
`overlap ≤ max_chunk_size / 2 + 1` (integer division): under these bounds
both the plain stride `max_chunk_size - overlap` and the sentence-break
stride advance the window by at least one character.  The claim's condition
`0 ≤ overlap < max_chunk_size` alone is not sufficient. -/
theorem c8_overlap_terminates (text : List Char) (maxS overlap : Nat)
    (h1 : overlap < maxS) (h2 : overlap ≤ maxS / 2 + 1) :
    overlapTerminates text maxS overlap := by
  refine ⟨text.length, ?_⟩
  rw [chunkTextOverlap]
  by_cases hl : text.length ≤ maxS
  · simp [hl]
  · rw [if_neg hl]
    exact overlapGo_isSome text maxS overlap h1 h2 text.length 0 (by omega)

/-- C8 amended witness: a 16-character text with `max_chunk_size = 10` and
the in-bounds `overlap = 2` terminates. -/
theorem c8_overlap_terminates_witness :
    overlapTerminates ("aaaaaaabaaaaaaab".data) 10 2 :=
  c8_overlap_terminates ("aaaaaaabaaaaaaab".data) 10 2 (by norm_num) (by norm_num)
